import Mathlib

/-!
# infinity-tech-test: record reconstruction, coercion, validation, insertion

A shallow embedding of `main.go` (`csvToUploadModel`, `isHeader`, `validate`,
`validateAndInsert`) and of `db/models/upload.go` (`Upload`).

Conventions of the embedding.

* A Go `string` is a `String`: a text of Unicode code points, that is, valid
  UTF-8.  `len(s)` is `s.utf8ByteSize`, `utf8.RuneCountInString(s)` is
  `s.length`.  Library loops that run over the bytes of a text and only tell
  ASCII bytes apart are written over its characters: every byte of a
  non-ASCII character is at least 0x80 and takes the same branch as the
  character does.
* A Go slice is a `List`; `nil` and the empty slice are both `[]`.
* A run-time panic (index out of range) is the `crash` outcome; it is kept
  apart from an `error` value that a function returns.
* Calls to the syslog writer have no effect on the values computed and are
  left out.
* Functions of other packages whose bodies are not part of this repository
  (`time.Parse`, `strconv.ParseFloat`, the currency table of
  `golang.org/x/text/currency`) are the fields of a `Library` that the
  definitions calling them take as an argument.  `strconv.ParseInt` and
  `currency.ParseISO` / `tag.FixCase` are written out, because claims about
  the repository depend on what they return on malformed text.
-/

namespace InfinityTechTest

/-! ## Data model -/

/-- One parsed csv record: the fields of a line (`[]string`). -/
abbrev Row := List String

/-- The `Record` struct of `main.go`: a header row and the rows under it. -/
structure Record where
  Headers : List String
  Values : List (List String)
deriving DecidableEq

/-- The three fields of Go's `time.Time`; `==` on two `time.Time` values
compares exactly these. `loc = none` is the nil location pointer (UTC). -/
structure Time where
  wall : Nat
  ext : Int
  loc : Option String
deriving DecidableEq

/-- The value `time.Time{}`. -/
def zeroTime : Time := { wall := 0, ext := 0, loc := none }

/-- A `float32`, kept as its IEEE-754 bit pattern. -/
structure Float32 where
  bits : Nat
deriving DecidableEq

/-- The Go comparison `x != 0` on a `float32`: false exactly for `+0` and
`-0` (all bits below the sign bit clear), true for everything else, NaN
included. -/
def Float32.neZero (x : Float32) : Bool := x.bits % 2147483648 != 0

/-- The `models.Upload` struct of `db/models/upload.go`. -/
structure Upload where
  ID : Int
  EventDateTime : Time
  EventAction : String
  CallRef : Int
  EventValue : Float32
  EventCurrencyCode : String
deriving DecidableEq

/-- The value `*new(models.Upload)`: every field at its zero value. -/
def zeroUpload : Upload :=
  { ID := 0, EventDateTime := zeroTime, EventAction := "", CallRef := 0,
    EventValue := { bits := 0 }, EventCurrencyCode := "" }

/-- A run-time panic. -/
inductive Crash where
  | indexOutOfRange (index : Int) (length : Nat)
deriving DecidableEq

/-- What one pass through a loop body of `csvToUploadModel` does: go on with
a new state, leave the function through `return uploadModels, err`, or
panic. -/
inductive Flow (σ : Type) where
  | next (s : σ)
  | ret (err : String)
  | crash (c : Crash)
deriving DecidableEq

/-! ## Library functions -/

/-- The two sentinel errors of `strconv`. -/
inductive NumError where
  | ErrSyntax
  | ErrRange
deriving DecidableEq

/-- The loop of `strconv.ParseUint(s, 10, 64)` over the digits of `s`, with
`n` the value read so far. `cutoff = maxUint64/10 + 1`, `maxVal = 1<<64 - 1`.
A byte that is not a decimal digit is either a letter, whose value is at
least 10 and so not below the base, or no digit at all: a syntax error both
ways. The products and sums are those of `uint64`. -/
def parseUintLoop : List Char → Nat → Nat × Option NumError
  | [], n => (n, none)
  | c :: cs, n =>
    if 48 ≤ c.toNat ∧ c.toNat ≤ 57 then
      let d := c.toNat - 48
      if n ≥ 18446744073709551615 / 10 + 1 then
        (18446744073709551615, some NumError.ErrRange)
      else
        let n10 := n * 10 % 18446744073709551616
        let n1 := (n10 + d) % 18446744073709551616
        if n1 < n10 ∨ n1 > 18446744073709551615 then
          (18446744073709551615, some NumError.ErrRange)
        else parseUintLoop cs n1
    else (0, some NumError.ErrSyntax)

/-- The call `strconv.ParseUint(s, 10, 64)`. -/
def ParseUint (s : List Char) : Nat × Option NumError :=
  if s = [] then (0, some NumError.ErrSyntax) else parseUintLoop s 0

/-- The call `strconv.ParseInt(s, 10, 64)` of the Go standard library: the
value returned together with the error (`none` is `nil`). On a syntax error
the value is 0; on a range error it is the largest-magnitude `int64` of the
sign of the text. -/
def ParseInt (s : String) : Int × Option NumError :=
  match s.toList with
  | [] => (0, some NumError.ErrSyntax)
  | c :: cs =>
    let neg : Bool := c = '-'
    let body := if c = '+' ∨ c = '-' then cs else c :: cs
    let r := ParseUint body
    if r.2 = some NumError.ErrSyntax then (0, some NumError.ErrSyntax)
    else if neg = false ∧ r.1 ≥ 9223372036854775808 then
      (9223372036854775807, some NumError.ErrRange)
    else if neg = true ∧ r.1 > 9223372036854775808 then
      (-9223372036854775808, some NumError.ErrRange)
    else (if neg then -(r.1 : Int) else (r.1 : Int), none)

/-- The functions of other packages that `csvToUploadModel` and `validate`
call and whose bodies are outside this repository.

* `timeParse s` is `time.Parse(layout, s)` with the layout
  `"2006-01-02 15:04:05"`: `none` when an error is returned, in which case
  the `Time` returned with it is `time.Time{}`.
* `parseFloat s` is `strconv.ParseFloat(s, 32)` converted with `float32(·)`,
  paired with `true` when the error returned is not nil.
* `currencyKnown key` says whether `currency.Index(key)` finds the
  upper-case three-letter key in the table of the currency package. -/
structure Library where
  timeParse : String → Option Time
  parseFloat : String → Float32 × Bool
  currencyKnown : String → Bool

/-- The errors of `currency.ParseISO`. -/
inductive CurrencyError where
  | errSyntax
  | errValue
deriving DecidableEq

/-- The loop of `tag.FixCase("XXX", key)`: every byte is brought to upper
case (`c -= 'z' - 'Z'` when `c >= 'a'`) and has to lie in `'A'..'Z'`. -/
def fixCaseLoop : List Char → Option (List Char)
  | [] => some []
  | c :: cs =>
    let u := if c.toNat ≥ 97 then c.toNat - 32 else c.toNat
    if u < 65 ∨ 90 < u then none
    else
      match fixCaseLoop cs with
      | none => none
      | some rest => some (Char.ofNat u :: rest)

/-- The call `tag.FixCase("XXX", key)` on the key `ParseISO` copies out of
`s` (at most four bytes of it): it fails unless the key is three bytes
long. -/
def FixCase (s : String) : Option String :=
  if s.utf8ByteSize ≠ 3 then none
  else
    match fixCaseLoop s.toList with
    | none => none
    | some key => some (String.mk key)

/-- The call `currency.ParseISO(s)`, reduced to its error (`none` is `nil`):
a syntax error when `FixCase` fails, a value error when the key is not in
the table. -/
def ParseISO (L : Library) (s : String) : Option CurrencyError :=
  match FixCase s with
  | none => some CurrencyError.errSyntax
  | some key => if L.currencyKnown key then none else some CurrencyError.errValue

/-- The call `utf8.RuneCountInString(s)`. -/
def RuneCountInString (s : String) : Nat := s.length

/-! ## `isHeader` and `validate` -/

/-- The slice `allowedColumnNames` of `isHeader`. -/
def allowedColumnNames : List String :=
  ["eventDatetime", "eventAction", "callRef", "eventValue", "eventCurrencyCode"]

/-- The function `isHeader`: false at the first field that is not a key of
the map built from `allowedColumnNames`, true when there is none. -/
def isHeader : List String → Bool
  | [] => true
  | record :: rest => if record ∈ allowedColumnNames then isHeader rest else false

/-- The reasons for which `validate` returns false. -/
inductive ValidationError where
  | eventDateTimeRequired
  | eventActionLength (given : Nat)
  | callRefRequired
  | currencyCodeLength
  | currency (e : CurrencyError)
deriving DecidableEq

/-- The function `validate`: the pair `(bool, error)` it returns. -/
def validate (L : Library) (model : Upload) : Bool × Option ValidationError :=
  if model.EventDateTime = zeroTime then
    (false, some ValidationError.eventDateTimeRequired)
  else
    let eventActionLength := RuneCountInString model.EventAction
    if eventActionLength < 1 ∨ eventActionLength > 20 then
      (false, some (ValidationError.eventActionLength eventActionLength))
    else if model.CallRef = 0 then
      (false, some ValidationError.callRefRequired)
    else
      let currencyCodeLength := RuneCountInString model.EventCurrencyCode
      if model.EventValue.neZero = true ∧ currencyCodeLength ≠ 3 then
        (false, some ValidationError.currencyCodeLength)
      else
        match ParseISO L model.EventCurrencyCode with
        | some e => (false, some (ValidationError.currency e))
        | none => (true, none)

/-! ## `csvToUploadModel` -/

/-- What opening and reading one entry of `uploads` gives: `os.Open` fails,
`reader.ReadAll` fails, or `fileContents` is delivered. -/
inductive RawFile where
  | openFails (err : String)
  | readFails (err : String)
  | contents (fileContents : List Row)
deriving DecidableEq

/-- The loop `for _, record := range fileContents` of `csvToUploadModel`:
`contents` grows by the records of the file until one has other than five
fields, where the loop is left with `break`. -/
def keepRows : List Row → List Row → List Row
  | [], contents => contents
  | record :: rest, contents =>
    if record.length ≠ 5 then contents else keepRows rest (contents ++ [record])

/-- The loop `for _, uploadedFile := range uploads`: an error of `os.Open`
or of `ReadAll` is returned at once, otherwise the rows kept of the file are
added to `contents`. -/
def readUploads : List RawFile → List Row → Except String (List Row)
  | [], contents => Except.ok contents
  | RawFile.openFails err :: _, _ => Except.error err
  | RawFile.readFails err :: _, _ => Except.error err
  | RawFile.contents fileContents :: rest, contents =>
    readUploads rest (keepRows fileContents contents)

/-- The body of the loop `for _, content := range contents`: a header row
appends a new `Record`; any other row is appended to the `Values` of
`records[len(records)-1]`, which panics when `records` is empty. -/
def groupStep (records : List Record) (content : Row) : Except Crash (List Record) :=
  if isHeader content then
    Except.ok (records ++ [{ Headers := content, Values := [] }])
  else
    let i : Int := (records.length : Int) - 1
    match (if 0 ≤ i then records[i.toNat]? else none) with
    | none => Except.error (Crash.indexOutOfRange i records.length)
    | some r =>
      Except.ok (records.set i.toNat { r with Values := r.Values ++ [content] })

/-- The loop `for _, content := range contents`, from the `records` built so
far. -/
def groupRows : List Row → List Record → Except Crash (List Record)
  | [], records => Except.ok records
  | content :: rest, records =>
    match groupStep records content with
    | Except.error c => Except.error c
    | Except.ok records1 => groupRows rest records1

/-- The entries of the slice `errors`. -/
inductive CoercionError where
  | parseDate (text : String)
  | parseCallRef (text : String) (e : NumError)
  | parseEventValue (text : String)
deriving DecidableEq

/-- The `switch header` statement for one `header`, its index `j` and one row
`values`, on the `upload` and the `errors` of the moment. The field is
assigned whether or not the parse failed. -/
def coerceCell (L : Library) (header : String) (j : Nat) (values : Row)
    (st : Upload × List CoercionError) : Flow (Upload × List CoercionError) :=
  if header = "eventDatetime" then
    match values[j]? with
    | none => Flow.crash (Crash.indexOutOfRange j values.length)
    | some text =>
      match L.timeParse text with
      | none =>
        Flow.next ({ st.1 with EventDateTime := zeroTime },
          st.2 ++ [CoercionError.parseDate text])
      | some t => Flow.next ({ st.1 with EventDateTime := t }, st.2)
  else if header = "eventAction" then
    match values[j]? with
    | none => Flow.crash (Crash.indexOutOfRange j values.length)
    | some text => Flow.next ({ st.1 with EventAction := text }, st.2)
  else if header = "callRef" then
    match values[j]? with
    | none => Flow.crash (Crash.indexOutOfRange j values.length)
    | some text =>
      match ParseInt text with
      | (callRef, some e) =>
        Flow.next ({ st.1 with CallRef := callRef },
          st.2 ++ [CoercionError.parseCallRef text e])
      | (callRef, none) => Flow.next ({ st.1 with CallRef := callRef }, st.2)
  else if header = "eventValue" then
    match values[j]? with
    | none => Flow.crash (Crash.indexOutOfRange j values.length)
    | some text =>
      match L.parseFloat text with
      | (eventValue, true) =>
        Flow.next ({ st.1 with EventValue := eventValue },
          st.2 ++ [CoercionError.parseEventValue text])
      | (eventValue, false) => Flow.next ({ st.1 with EventValue := eventValue }, st.2)
  else if header = "eventCurrencyCode" then
    match values[j]? with
    | none => Flow.crash (Crash.indexOutOfRange j values.length)
    | some text => Flow.next ({ st.1 with EventCurrencyCode := text }, st.2)
  else Flow.ret "this should not happen, yet it did"

/-- The loop `for _, values := range record.Values` for one `header` at
index `j`. -/
def coerceValues (L : Library) (header : String) (j : Nat) :
    List Row → Upload × List CoercionError → Flow (Upload × List CoercionError)
  | [], st => Flow.next st
  | values :: rest, st =>
    match coerceCell L header j values st with
    | Flow.next st1 => coerceValues L header j rest st1
    | Flow.ret err => Flow.ret err
    | Flow.crash c => Flow.crash c

/-- The loop `for j, header := range record.Headers`, from index `j` on. -/
def coerceHeaders (L : Library) (rows : List Row) :
    List String → Nat → Upload × List CoercionError → Flow (Upload × List CoercionError)
  | [], _, st => Flow.next st
  | header :: rest, j, st =>
    match coerceValues L header j rows st with
    | Flow.next st1 => coerceHeaders L rows rest (j + 1) st1
    | Flow.ret err => Flow.ret err
    | Flow.crash c => Flow.crash c

/-- The body of the loop `for i, record := range records` up to the
assignment `uploadModels[i] = *upload`: the `upload` built for the record,
starting from `new(models.Upload)`, and the `errors` after it. -/
def coerceRecord (L : Library) (record : Record) (errors : List CoercionError) :
    Flow (Upload × List CoercionError) :=
  coerceHeaders L record.Values record.Headers 0 (zeroUpload, errors)

/-- How a call of `csvToUploadModel` ends: with its two results, or in a
panic. -/
inductive Outcome where
  | returned (uploadModels : List Upload) (err : Option String)
  | crashed (c : Crash)
deriving DecidableEq

/-- The loop `for i, record := range records`, from index `i` on, followed by
the final `return`. -/
def coerceRecords (L : Library) :
    List Record → Nat → List Upload → List CoercionError → Outcome
  | [], _, uploadModels, _ => Outcome.returned uploadModels none
  | record :: rest, i, uploadModels, errors =>
    match coerceRecord L record errors with
    | Flow.next (upload, errors1) =>
      coerceRecords L rest (i + 1) (uploadModels.set i upload) errors1
    | Flow.ret err => Outcome.returned uploadModels (some err)
    | Flow.crash c => Outcome.crashed c

/-- The third stage of `csvToUploadModel`, from
`uploadModels = make([]models.Upload, len(records))` to the end. -/
def recordsToUploads (L : Library) (records : List Record) : Outcome :=
  coerceRecords L records 0 (List.replicate records.length zeroUpload) []

/-- The function `csvToUploadModel`, on what the row source gives for each
entry of `uploads`. -/
def csvToUploadModel (L : Library) (uploads : List RawFile) : Outcome :=
  match readUploads uploads [] with
  | Except.error err => Outcome.returned [] (some err)
  | Except.ok contents =>
    match groupRows contents [] with
    | Except.error c => Outcome.crashed c
    | Except.ok records => recordsToUploads L records

/-! ## `validateAndInsert` -/

/-- One call `model.Insert(db)` made by `validateAndInsert`, with the result
it got. -/
structure InsertCall where
  model : Upload
  result : Int × Option String
deriving DecidableEq

/-- The function `validateAndInsert`. The store is a state of any type `σ`
and `insert db model` is `model.Insert(db)`: the store after the call and the
`(int64, error)` returned (`none` is `nil`), any function at all. The value is the store at the
end together with the calls of `Insert` made, in order. -/
def validateAndInsert {σ : Type} (L : Library)
    (insert : σ → Upload → σ × (Int × Option String)) :
    List Upload → σ → σ × List InsertCall
  | [], db => (db, [])
  | model :: rest, db =>
    if (validate L model).1 = false then validateAndInsert L insert rest db
    else
      let r := insert db model
      let after := validateAndInsert L insert rest r.1
      (after.1, { model := model, result := r.2 } :: after.2)

/-! ## A library instance for the worked examples -/

/-- A `Library` for the worked examples. It agrees with the Go packages on
the texts the examples use: `time.Parse` reads `"2023-05-01 10:00:00"` as the
instant 63818532000 seconds after the start of year 1 in UTC, and returns an
error on `"yesterday"` and `""`; `strconv.ParseFloat` reads `"9.99"` as the
`float32` of bits `0x411FD70A` and `"0"` as `+0`, and returns 0 with an error
on `"abc"`; `USD`, `EUR` and `GBP` are in the currency table. -/
def exampleLibrary : Library where
  timeParse := fun s =>
    if s = "2023-05-01 10:00:00" then some { wall := 0, ext := 63818532000, loc := none }
    else none
  parseFloat := fun s =>
    if s = "9.99" then ({ bits := 1092605706 }, false)
    else if s = "0" then ({ bits := 0 }, false)
    else ({ bits := 0 }, true)
  currencyKnown := fun key => key = "USD" || key = "EUR" || key = "GBP"

/-- The header row of the input files in the order of the specification. -/
def standardHeader : Row :=
  ["eventDatetime", "eventAction", "callRef", "eventValue", "eventCurrencyCode"]

/-- An entity that passes every rule of `validate` under `exampleLibrary`. -/
def acceptedUpload : Upload :=
  { ID := 0, EventDateTime := { wall := 0, ext := 63818532000, loc := none },
    EventAction := "PURCHASE", CallRef := 123, EventValue := { bits := 1092605706 },
    EventCurrencyCode := "USD" }

/-- The same entity without a monetary value and without a currency
code. -/
def noValueNoCode : Upload :=
  { acceptedUpload with EventValue := { bits := 0 }, EventCurrencyCode := "" }

/-- The same entity with an action of twenty two-byte characters: twenty
code points, forty bytes. -/
def twentyRunes : Upload :=
  { acceptedUpload with EventAction := "éééééééééééééééééééé" }

/-- A value row that coerces without error and validates. -/
def purchaseRow : Row := ["2023-05-01 10:00:00", "PURCHASE", "123", "9.99", "USD"]

/-- A second value row of the same kind. -/
def refundRow : Row := ["2023-05-01 10:00:00", "REFUND", "456", "0", "EUR"]

/-- A row of four fields. -/
def shortRow : Row := ["2023-05-01 10:00:00", "PURCHASE", "123", "9.99"]

/-- A file of two blocks: a header with two value rows, then a header with
one. -/
def twoBlocks : List Row :=
  [standardHeader, purchaseRow, refundRow, standardHeader, purchaseRow]

/-- The entity of `refundRow`. -/
def refundUpload : Upload :=
  { ID := 0, EventDateTime := { wall := 0, ext := 63818532000, loc := none },
    EventAction := "REFUND", CallRef := 456, EventValue := { bits := 0 },
    EventCurrencyCode := "EUR" }

/-- A value row whose call reference is one above the largest `int64`. -/
def overflowRow : Row :=
  ["2023-05-01 10:00:00", "PURCHASE", "9223372036854775808", "9.99", "USD"]

/-- A value row whose event value is no number. -/
def badValueRow : Row := ["2023-05-01 10:00:00", "PURCHASE", "123", "abc", "USD"]

/-- A value row whose date does not parse. -/
def badDateRow : Row := ["yesterday", "PURCHASE", "123", "9.99", "USD"]

/-! ## The grouping of the specification -/

/-- The rows a list of `Record`s stands for: for each one its `Headers`
followed by its `Values`. -/
def rowsOf : List Record → List Row
  | [] => []
  | r :: rest => r.Headers :: (r.Values ++ rowsOf rest)

/-- The grouping as the specification words it, written without the loop
state: every header row gives one record, whose values are the rows after it
up to the next header row or the end of the input; a row that is no header
gives no record of its own. -/
def blocksSpec : List Row → List Record
  | [] => []
  | row :: rest =>
    if isHeader row then
      { Headers := row, Values := rest.takeWhile (fun r => !isHeader r) } :: blocksSpec rest
    else blocksSpec rest

/-! ## Lemmas on `validate` and `ParseISO` -/

theorem validate_unfold (L : Library) (model : Upload) :
    validate L model =
      if model.EventDateTime = zeroTime then
        (false, some ValidationError.eventDateTimeRequired)
      else if RuneCountInString model.EventAction < 1 ∨
          RuneCountInString model.EventAction > 20 then
        (false, some (ValidationError.eventActionLength
          (RuneCountInString model.EventAction)))
      else if model.CallRef = 0 then (false, some ValidationError.callRefRequired)
      else if model.EventValue.neZero = true ∧
          RuneCountInString model.EventCurrencyCode ≠ 3 then
        (false, some ValidationError.currencyCodeLength)
      else
        match ParseISO L model.EventCurrencyCode with
        | some e => (false, some (ValidationError.currency e))
        | none => (true, none) := rfl

theorem validate_zero_time (L : Library) (model : Upload)
    (h : model.EventDateTime = zeroTime) : (validate L model).1 = false := by
  simp [validate, h]

theorem validate_zero_callRef (L : Library) (model : Upload)
    (h : model.CallRef = 0) : (validate L model).1 = false := by
  simp only [validate]
  split_ifs <;> simp_all

theorem validate_fst_iff (L : Library) (model : Upload) :
    (validate L model).1 = true ↔ validate L model = (true, none) := by
  simp only [validate]
  split_ifs <;> try simp
  cases ParseISO L model.EventCurrencyCode <;> simp

theorem utf8ByteSize_go_of_ascii (cs : List Char) (h : ∀ c ∈ cs, c.toNat ≤ 127) :
    String.utf8ByteSize.go cs = cs.length := by
  induction cs with
  | nil => rfl
  | cons c cs ih =>
    have hc : c.toNat ≤ 127 := h c (List.mem_cons_self c cs)
    have hs : c.utf8Size = 1 := by
      have h1 : c.val ≤ 127 := by
        rw [UInt32.le_def]
        simpa [Char.toNat] using hc
      simp [Char.utf8Size, h1]
    simp only [String.utf8ByteSize.go, List.length_cons]
    rw [ih (fun d hd => h d (List.mem_cons_of_mem c hd)), hs]

theorem fixCaseLoop_ascii (cs : List Char) (key : List Char)
    (h : fixCaseLoop cs = some key) : ∀ c ∈ cs, c.toNat ≤ 127 := by
  induction cs generalizing key with
  | nil => intro c hc; cases hc
  | cons d ds ih =>
    intro c hc
    simp only [fixCaseLoop] at h
    split_ifs at h with h1 h2 h2
    · cases hrest : fixCaseLoop ds with
      | none => simp [hrest] at h
      | some rest =>
        rcases List.mem_cons.mp hc with rfl | hmem
        · omega
        · exact ih rest hrest c hmem
    · cases hrest : fixCaseLoop ds with
      | none => simp [hrest] at h
      | some rest =>
        rcases List.mem_cons.mp hc with rfl | hmem
        · omega
        · exact ih rest hrest c hmem

/-- A text that `ParseISO` takes has exactly three code points: rule 5 of
`validate` alone already forces the length that rule 4 asks for. -/
theorem ParseISO_ok_length (L : Library) (s : String) (h : ParseISO L s = none) :
    RuneCountInString s = 3 := by
  unfold ParseISO at h
  cases hf : FixCase s with
  | none => simp [hf] at h
  | some key =>
    unfold FixCase at hf
    split_ifs at hf with hlen
    cases hl : fixCaseLoop s.toList with
    | none =>
      rw [show s.toList = s.data from rfl] at hl
      simp [hl] at hf
    | some k =>
      have hascii := fixCaseLoop_ascii s.toList k hl
      have hgo := utf8ByteSize_go_of_ascii s.toList hascii
      have hsize : s.utf8ByteSize = 3 := by simpa using hlen
      have : s.utf8ByteSize = String.utf8ByteSize.go s.toList := by
        cases s; rfl
      unfold RuneCountInString
      rw [String.length]
      have h2 : s.toList = s.data := rfl
      rw [h2] at hgo this
      omega

theorem ParseISO_empty (L : Library) : ParseISO L "" = some CurrencyError.errSyntax := by
  have h : FixCase "" = none := by decide
  simp [ParseISO, h]

/-! ## Claims on `validate` -/

/-- C1: `validate` returns `(true, nil)` exactly when the five rules hold:
the date is not the zero time, the action has 1 to 20 code points, `CallRef`
is not 0, `EventValue` is 0 or the currency code has 3 code points, and
`ParseISO` takes the currency code. An action of 20 code points passes rule
2 (also one of 40 bytes), one of 21 code points is rejected, `CallRef = 0` is
rejected whatever the other fields are, and so is the empty currency code. -/
theorem validate_accepts_iff_rules (L : Library) (model : Upload) :
    (validate L model = (true, none) ↔
      model.EventDateTime ≠ zeroTime ∧
      (1 ≤ RuneCountInString model.EventAction ∧
        RuneCountInString model.EventAction ≤ 20) ∧
      model.CallRef ≠ 0 ∧
      (model.EventValue.neZero = false ∨
        RuneCountInString model.EventCurrencyCode = 3) ∧
      ParseISO L model.EventCurrencyCode = none) ∧
    ((validate L model).1 = true ↔ validate L model = (true, none)) ∧
    (RuneCountInString model.EventAction = 20 →
      (validate L model = (true, none) ↔
        model.EventDateTime ≠ zeroTime ∧ model.CallRef ≠ 0 ∧
        (model.EventValue.neZero = false ∨
          RuneCountInString model.EventCurrencyCode = 3) ∧
        ParseISO L model.EventCurrencyCode = none)) ∧
    (RuneCountInString model.EventAction = 21 → (validate L model).1 = false) ∧
    (model.CallRef = 0 → (validate L model).1 = false) ∧
    (model.EventCurrencyCode = "" → (validate L model).1 = false) ∧
    (RuneCountInString twentyRunes.EventAction = 20 ∧
      twentyRunes.EventAction.utf8ByteSize = 40 ∧
      validate exampleLibrary twentyRunes = (true, none)) := by
  have main : validate L model = (true, none) ↔
      model.EventDateTime ≠ zeroTime ∧
      (1 ≤ RuneCountInString model.EventAction ∧
        RuneCountInString model.EventAction ≤ 20) ∧
      model.CallRef ≠ 0 ∧
      (model.EventValue.neZero = false ∨
        RuneCountInString model.EventCurrencyCode = 3) ∧
      ParseISO L model.EventCurrencyCode = none := by
    rw [validate_unfold]
    split_ifs with h1 h2 h3 h4
    · constructor
      · intro h; simp at h
      · rintro ⟨h, _⟩; exact absurd h1 h
    · constructor
      · intro h; simp at h
      · rintro ⟨_, h, _⟩; omega
    · constructor
      · intro h; simp at h
      · rintro ⟨_, _, h, _⟩; exact absurd h3 h
    · constructor
      · intro h; simp at h
      · rintro ⟨_, _, _, h, _⟩
        rcases h with h | h
        · rw [h4.1] at h; cases h
        · exact absurd h h4.2
    · have h2a : 1 ≤ RuneCountInString model.EventAction ∧
          RuneCountInString model.EventAction ≤ 20 := by omega
      have h4a : model.EventValue.neZero = false ∨
          RuneCountInString model.EventCurrencyCode = 3 := by
        by_cases hz : model.EventValue.neZero = true
        · right
          by_contra hne
          exact h4 ⟨hz, hne⟩
        · left; simpa using hz
      cases hp : ParseISO L model.EventCurrencyCode with
      | none =>
        constructor
        · intro _; exact ⟨h1, h2a, h3, h4a, rfl⟩
        · intro _; rfl
      | some e =>
        constructor
        · intro h; simp at h
        · rintro ⟨_, _, _, _, h⟩; cases h
  refine ⟨main, validate_fst_iff L model, ?_, ?_, validate_zero_callRef L model, ?_, ?_⟩
  · intro h20
    rw [main, h20]
    constructor
    · rintro ⟨a, _, b, c, d⟩; exact ⟨a, b, c, d⟩
    · rintro ⟨a, b, c, d⟩; exact ⟨a, ⟨by omega, by omega⟩, b, c, d⟩
  · intro h21
    cases hv : (validate L model).1 with
    | false => rfl
    | true =>
      have := ((validate_fst_iff L model).mp hv)
      rw [main] at this
      omega
  · intro hempty
    cases hv : (validate L model).1 with
    | false => rfl
    | true =>
      have := ((validate_fst_iff L model).mp hv)
      rw [main, hempty, ParseISO_empty] at this
      exact absurd this.2.2.2.2 (by simp)
  · decide

/-- C2, the claim as written fails: an entity with a date, an action and a
call reference that pass, no monetary value and an empty currency code is
rejected by `validate`, with the syntax error of `ParseISO`. -/
theorem validate_rejects_empty_code_without_value :
    noValueNoCode.EventDateTime ≠ zeroTime ∧
    (1 ≤ RuneCountInString noValueNoCode.EventAction ∧
      RuneCountInString noValueNoCode.EventAction ≤ 20) ∧
    noValueNoCode.CallRef ≠ 0 ∧
    noValueNoCode.EventValue.neZero = false ∧
    noValueNoCode.EventCurrencyCode = "" ∧
    validate exampleLibrary noValueNoCode =
      (false, some (ValidationError.currency CurrencyError.errSyntax)) := by
  decide

/-- C2 as amended: for an entity with a non-zero date, an action of 1 to 20
code points and a non-zero `CallRef`, `validate` accepts iff `ParseISO` takes
the currency code when `EventValue` is 0, and iff the code has 3 code points
and `ParseISO` takes it when `EventValue` is not 0; a code that `ParseISO`
takes has 3 code points in both cases, and the empty code is never
accepted. -/
theorem validate_currency_rule (L : Library) (model : Upload)
    (hdate : model.EventDateTime ≠ zeroTime)
    (haction : 1 ≤ RuneCountInString model.EventAction ∧
      RuneCountInString model.EventAction ≤ 20)
    (hcall : model.CallRef ≠ 0) :
    (model.EventValue.neZero = false →
      (validate L model = (true, none) ↔ ParseISO L model.EventCurrencyCode = none)) ∧
    (model.EventValue.neZero = true →
      (validate L model = (true, none) ↔
        RuneCountInString model.EventCurrencyCode = 3 ∧
        ParseISO L model.EventCurrencyCode = none)) ∧
    (validate L model = (true, none) → RuneCountInString model.EventCurrencyCode = 3) ∧
    (model.EventCurrencyCode = "" → validate L model ≠ (true, none)) := by
  have hd : ¬ model.EventDateTime = zeroTime := hdate
  have ha : ¬ (RuneCountInString model.EventAction < 1 ∨
      RuneCountInString model.EventAction > 20) := by omega
  have hc : ¬ model.CallRef = 0 := hcall
  refine ⟨?_, ?_, ?_, ?_⟩
  · intro hz
    rw [validate_unfold, if_neg hd, if_neg ha, if_neg hc, if_neg (by simp [hz])]
    cases ParseISO L model.EventCurrencyCode <;> simp
  · intro hz
    rw [validate_unfold, if_neg hd, if_neg ha, if_neg hc]
    by_cases h3 : RuneCountInString model.EventCurrencyCode = 3
    · rw [if_neg (by simp [h3])]
      cases ParseISO L model.EventCurrencyCode <;> simp [h3]
    · rw [if_pos ⟨hz, h3⟩]
      simp [h3]
  · intro hv
    apply ParseISO_ok_length L
    rw [validate_unfold, if_neg hd, if_neg ha, if_neg hc] at hv
    split_ifs at hv
    · simp at hv
    · cases hp : ParseISO L model.EventCurrencyCode with
      | none => rfl
      | some e => simp [hp] at hv
  · intro hempty hv
    rw [validate_unfold, if_neg hd, if_neg ha, if_neg hc, hempty, ParseISO_empty] at hv
    split_ifs at hv <;> simp at hv

/-- C2 as amended, at `acceptedUpload`: the three conditions hold and the
entity, whose `EventValue` is not 0 and whose code is `USD`, is accepted. -/
theorem validate_currency_rule_witness :
    validate exampleLibrary acceptedUpload = (true, none) :=
  ((validate_currency_rule exampleLibrary acceptedUpload (by decide) (by decide)
    (by decide)).2.1 (by decide)).mpr ⟨by decide, by decide⟩

/-! ## The column-count loop and the file loop -/

theorem keepRows_eq (fileContents contents : List Row) :
    keepRows fileContents contents =
      contents ++ fileContents.takeWhile (fun r => decide (r.length = 5)) := by
  induction fileContents generalizing contents with
  | nil => simp [keepRows]
  | cons record rest ih =>
    by_cases h : record.length = 5
    · simp [keepRows, h, ih]
    · simp [keepRows, h]

theorem takeWhile_uniform (rows : List Row)
    (h : ∀ r ∈ rows, ∀ q ∈ rows, r.length = q.length) :
    rows.takeWhile (fun r => decide (r.length = 5)) =
      rows.filter (fun r => decide (r.length = 5)) := by
  cases rows with
  | nil => rfl
  | cons first rest =>
    by_cases h5 : first.length = 5
    · have hall : ∀ r ∈ first :: rest, decide (r.length = 5) = true := by
        intro r hr
        have := h r hr first (List.mem_cons_self first rest)
        simp [this, h5]
      rw [List.takeWhile_eq_self_iff.mpr hall, List.filter_eq_self.mpr hall]
    · have hnone : ∀ r ∈ first :: rest, ¬ decide (r.length = 5) = true := by
        intro r hr
        have := h r hr first (List.mem_cons_self first rest)
        simp [this, h5]
      rw [List.filter_eq_nil_iff.mpr hnone]
      simp [List.takeWhile, h5]

theorem readUploads_fails (before : List (List Row)) (failing : RawFile) (err : String)
    (after : List RawFile) (contents : List Row)
    (hfail : failing = RawFile.openFails err ∨ failing = RawFile.readFails err) :
    readUploads (before.map RawFile.contents ++ failing :: after) contents =
      Except.error err := by
  induction before generalizing contents with
  | nil =>
    rcases hfail with h | h <;> subst h <;> rfl
  | cons f fs ih =>
    simp only [List.map_cons, List.cons_append, readUploads]
    exact ih _

theorem readUploads_ok (files : List (List Row)) (contents : List Row) :
    readUploads (files.map RawFile.contents) contents =
      Except.ok (contents ++
        (files.map (fun f => f.takeWhile (fun r => decide (r.length = 5)))).flatten) := by
  induction files generalizing contents with
  | nil => simp [readUploads]
  | cons f fs ih =>
    simp only [List.map_cons, readUploads, ih, keepRows_eq, List.flatten_cons,
      List.append_assoc]

/-! ## The grouping loop -/

theorem groupStep_header (records : List Record) (content : Row)
    (h : isHeader content = true) :
    groupStep records content =
      Except.ok (records ++ [{ Headers := content, Values := [] }]) := by
  simp [groupStep, h]

theorem groupStep_value (front : List Record) (last : Record) (content : Row)
    (h : isHeader content = false) :
    groupStep (front ++ [last]) content =
      Except.ok (front ++ [{ last with Values := last.Values ++ [content] }]) := by
  have hi : ((front ++ [last]).length : Int) - 1 = (front.length : Int) := by
    simp
  simp only [groupStep, h, hi]
  simp

theorem groupStep_orphan (content : Row) (h : isHeader content = false) :
    groupStep [] content = Except.error (Crash.indexOutOfRange (-1) 0) := by
  simp [groupStep, h]

theorem groupRows_orphan (content : Row) (rest : List Row)
    (h : isHeader content = false) :
    groupRows (content :: rest) [] = Except.error (Crash.indexOutOfRange (-1) 0) := by
  simp [groupRows, groupStep_orphan content h]

theorem groupRows_from (rows : List Row) (front : List Record) (last : Record) :
    groupRows rows (front ++ [last]) =
      Except.ok (front ++
        [{ last with
            Values := last.Values ++ rows.takeWhile (fun r => !isHeader r) }] ++
        blocksSpec rows) := by
  induction rows generalizing front last with
  | nil => simp [groupRows, blocksSpec]
  | cons row rest ih =>
    cases h : isHeader row with
    | true =>
      simp only [groupRows, groupStep_header _ _ h]
      rw [ih (front ++ [last]) { Headers := row, Values := [] }]
      simp [blocksSpec, h, List.takeWhile]
    | false =>
      simp only [groupRows, groupStep_value _ _ _ h]
      rw [ih front { last with Values := last.Values ++ [row] }]
      simp [blocksSpec, h, List.takeWhile]

theorem blocksSpec_length (rows : List Row) :
    (blocksSpec rows).length = rows.countP isHeader := by
  induction rows with
  | nil => rfl
  | cons row rest ih =>
    cases h : isHeader row <;> simp [blocksSpec, h, ih, List.countP_cons]

theorem blocksSpec_headers (rows : List Row) :
    (blocksSpec rows).map Record.Headers = rows.filter isHeader := by
  induction rows with
  | nil => rfl
  | cons row rest ih =>
    cases h : isHeader row <;> simp [blocksSpec, h, ih]

theorem blocksSpec_values (rows : List Row) :
    ∀ r ∈ blocksSpec rows, ∀ v ∈ r.Values, isHeader v = false := by
  induction rows with
  | nil => intro r hr; cases hr
  | cons row rest ih =>
    intro r hr v hv
    cases h : isHeader row with
    | true =>
      simp only [blocksSpec, h, if_true, List.mem_cons] at hr
      rcases hr with rfl | hr
      · have := List.mem_takeWhile_imp hv
        simpa using this
      · exact ih r hr v hv
    | false =>
      simp only [blocksSpec, h] at hr
      exact ih r hr v hv

theorem rowsOf_blocksSpec (rows : List Row) :
    rowsOf (blocksSpec rows) = rows.dropWhile (fun r => !isHeader r) := by
  induction rows with
  | nil => rfl
  | cons row rest ih =>
    cases h : isHeader row with
    | true =>
      simp only [blocksSpec, h, if_true, rowsOf, ih, List.dropWhile, Bool.not_true]
      rw [List.takeWhile_append_dropWhile]
    | false =>
      simp [blocksSpec, h, ih, List.dropWhile]

/-! ## Claims on the file loop, the column-count loop and the grouping loop -/

/-- C3: on a sequence of rows whose first row is a header, the grouping loop
of `csvToUploadModel` ends without a panic and returns the records of the
specification: as many records as header rows, the i-th with the i-th
header row as `Headers` and with the rows that follow it up to the next
header row as `Values` (none of them a header), in input order; the
`Headers` and `Values` of the records, put one after the other, are the
input. It holds for rows of any width, those of 5 fields included. -/
theorem groupRows_reconstructs (header : Row) (rest : List Row)
    (hfirst : isHeader header = true) :
    ∃ records, groupRows (header :: rest) [] = Except.ok records ∧
      records = blocksSpec (header :: rest) ∧
      records.length = (header :: rest).countP isHeader ∧
      records.map Record.Headers = (header :: rest).filter isHeader ∧
      (∀ r ∈ records, ∀ v ∈ r.Values, isHeader v = false) ∧
      rowsOf records = header :: rest := by
  have hrun : groupRows (header :: rest) [] =
      Except.ok (blocksSpec (header :: rest)) := by
    simp only [groupRows, groupStep_header _ _ hfirst]
    have h := groupRows_from rest [] { Headers := header, Values := [] }
    simp only [List.nil_append] at h ⊢
    rw [h]
    simp [blocksSpec, hfirst]
  refine ⟨blocksSpec (header :: rest), hrun, rfl, blocksSpec_length _,
    blocksSpec_headers _, blocksSpec_values _, ?_⟩
  rw [rowsOf_blocksSpec]
  simp [List.dropWhile, hfirst]

/-- C3 at `twoBlocks`: the first row is a header, every row has 5 fields, and
the loop returns the two records of the file. -/
theorem groupRows_reconstructs_witness :
    isHeader standardHeader = true ∧ (∀ r ∈ twoBlocks, r.length = 5) ∧
    ∃ records, groupRows twoBlocks [] = Except.ok records ∧
      records = blocksSpec twoBlocks ∧
      records.length = twoBlocks.countP isHeader ∧
      records.map Record.Headers = twoBlocks.filter isHeader ∧
      (∀ r ∈ records, ∀ v ∈ r.Values, isHeader v = false) ∧
      rowsOf records = twoBlocks :=
  ⟨by decide, by decide,
    groupRows_reconstructs standardHeader
      [purchaseRow, refundRow, standardHeader, purchaseRow] (by decide)⟩

/-- C5: on the rows read from one file, all of one field count as
`ReadAll` of a `csv.NewReader` delivers them (a file with rows of different
counts is a read error, not a row sequence), the column-count loop adds to
`contents` exactly the rows of the file that have 5 fields, in their
original order: every 5-field row of the file is kept, wherever it stands,
and no row with another field count is. -/
theorem keepRows_keeps_five_field_rows (fileContents contents : List Row)
    (hread : ∀ r ∈ fileContents, ∀ q ∈ fileContents, r.length = q.length) :
    keepRows fileContents contents =
      contents ++ fileContents.filter (fun r => decide (r.length = 5)) ∧
    (∀ r ∈ fileContents, r.length = 5 → r ∈ keepRows fileContents contents) ∧
    (∀ r ∈ fileContents, r.length ≠ 5 →
      r ∉ fileContents.filter (fun r => decide (r.length = 5))) ∧
    (∀ (before : List Row) (bad : Row) (after : List Row),
      fileContents = before ++ bad :: after → bad.length ≠ 5 →
      ∀ r ∈ after, r.length = 5 → r ∈ keepRows fileContents contents) := by
  have hmain : keepRows fileContents contents =
      contents ++ fileContents.filter (fun r => decide (r.length = 5)) := by
    rw [keepRows_eq, takeWhile_uniform _ hread]
  have hkept : ∀ r ∈ fileContents, r.length = 5 →
      r ∈ keepRows fileContents contents := by
    intro r hr h5
    rw [hmain]
    exact List.mem_append_right _ (List.mem_filter.mpr ⟨hr, by simp [h5]⟩)
  refine ⟨hmain, hkept, ?_, ?_⟩
  · intro r _ hne hmem
    have := (List.mem_filter.mp hmem).2
    exact hne (by simpa using this)
  · intro before bad after hsplit _ r hr h5
    apply hkept r _ h5
    rw [hsplit]
    exact List.mem_append_right _ (List.mem_cons_of_mem _ hr)

/-- C5 at two files: one of three 5-field rows, all kept after the rows of
an earlier file, and one of two 4-field rows, none kept. -/
theorem keepRows_keeps_five_field_rows_witness :
    keepRows [standardHeader, purchaseRow, refundRow] [standardHeader] =
      [standardHeader, standardHeader, purchaseRow, refundRow] ∧
    keepRows [shortRow, shortRow] [standardHeader] = [standardHeader] :=
  ⟨(keepRows_keeps_five_field_rows [standardHeader, purchaseRow, refundRow]
      [standardHeader] (by decide)).1,
    (keepRows_keeps_five_field_rows [shortRow, shortRow] [standardHeader]
      (by decide)).1⟩

/-- C8, the code at the failing input: a file whose first row has 5 fields
and is no header makes the grouping loop index `records[-1]`, and
`csvToUploadModel` ends in a panic instead of dropping the row or returning
an error. -/
theorem groupRows_orphan_row_panics :
    purchaseRow.length = 5 ∧ isHeader purchaseRow = false ∧
    groupRows [purchaseRow] [] = Except.error (Crash.indexOutOfRange (-1) 0) ∧
    csvToUploadModel exampleLibrary [RawFile.contents [purchaseRow]] =
      Outcome.crashed (Crash.indexOutOfRange (-1) 0) :=
  ⟨by decide, by decide, by rfl, by decide⟩

/-- C10, the claim as written fails: a batch of a good file followed by a
file that cannot be opened returns the error and no entity, although the
good file alone gives one entity. -/
theorem csvToUploadModel_aborts_on_unopened_file :
    csvToUploadModel exampleLibrary
      [RawFile.contents [standardHeader, purchaseRow]] =
      Outcome.returned [acceptedUpload] none ∧
    csvToUploadModel exampleLibrary
      [RawFile.contents [standardHeader, purchaseRow],
        RawFile.openFails "open uploaded/b.csv: permission denied"] =
      Outcome.returned [] (some "open uploaded/b.csv: permission denied") := by
  decide

/-- C10 as amended: when the row source fails on a file of the batch
(`os.Open` or `ReadAll` returns an error) after reading the files before it,
`csvToUploadModel` stops at that file: it returns that error and no entity,
whatever the files before and after it hold. -/
theorem csvToUploadModel_returns_file_error (L : Library) (before : List (List Row))
    (failing : RawFile) (err : String) (after : List RawFile)
    (hfail : failing = RawFile.openFails err ∨ failing = RawFile.readFails err) :
    csvToUploadModel L (before.map RawFile.contents ++ failing :: after) =
      Outcome.returned [] (some err) := by
  simp only [csvToUploadModel, readUploads_fails before failing err after [] hfail]

/-- C10 as amended, at a batch of three files whose second cannot be
read. -/
theorem csvToUploadModel_returns_file_error_witness :
    csvToUploadModel exampleLibrary
      ([[standardHeader, purchaseRow]].map RawFile.contents ++
        RawFile.readFails "record on line 2: wrong number of fields" ::
          [RawFile.contents [standardHeader, refundRow]]) =
      Outcome.returned [] (some "record on line 2: wrong number of fields") :=
  csvToUploadModel_returns_file_error exampleLibrary [[standardHeader, purchaseRow]]
    (RawFile.readFails "record on line 2: wrong number of fields")
    "record on line 2: wrong number of fields"
    [RawFile.contents [standardHeader, refundRow]] (Or.inr rfl)

/-! ## The coercion loops -/

theorem ParseInt_syntax_value (s : String) (h : (ParseInt s).2 = some NumError.ErrSyntax) :
    ParseInt s = (0, some NumError.ErrSyntax) := by
  unfold ParseInt at h ⊢
  cases hs : s.toList with
  | nil => rfl
  | cons c cs =>
    simp only [hs] at h ⊢
    by_cases hsyn : (ParseUint (if c = '+' ∨ c = '-' then cs else c :: cs)).2 =
        some NumError.ErrSyntax
    · rw [if_pos hsyn]
    · rw [if_neg hsyn] at h
      split_ifs at h <;> simp at h

theorem isHeader_append (a b : List String) :
    isHeader (a ++ b) = (isHeader a && isHeader b) := by
  induction a with
  | nil => simp [isHeader]
  | cons x xs ih =>
    by_cases hx : x ∈ allowedColumnNames <;> simp [isHeader, hx, ih]

theorem isHeader_cons (x : String) (xs : List String) (h : isHeader (x :: xs) = true) :
    x ∈ allowedColumnNames ∧ isHeader xs = true := by
  by_cases hx : x ∈ allowedColumnNames
  · simpa [isHeader, hx] using h
  · simp [isHeader, hx] at h

theorem coerceCell_next (L : Library) (header : String) (j : Nat) (values : Row)
    (st : Upload × List CoercionError) (text : String)
    (hmem : header ∈ allowedColumnNames) (hv : values[j]? = some text) :
    ∃ st1, coerceCell L header j values st = Flow.next st1 ∧
      (∀ e ∈ st.2, e ∈ st1.2) ∧
      (header ≠ "eventDatetime" → st1.1.EventDateTime = st.1.EventDateTime) ∧
      (header ≠ "callRef" → st1.1.CallRef = st.1.CallRef) := by
  simp only [allowedColumnNames, List.mem_cons, List.mem_singleton, List.not_mem_nil,
    or_false] at hmem
  rcases hmem with rfl | rfl | rfl | rfl | rfl
  · cases ht : L.timeParse text with
    | none =>
      refine ⟨_, by simp [coerceCell, hv, ht]; rfl, ?_, ?_, ?_⟩
      · intro e he; simp [he]
      · intro h; exact absurd rfl h
      · intro _; rfl
    | some t =>
      refine ⟨_, by simp [coerceCell, hv, ht]; rfl, ?_, ?_, ?_⟩
      · intro e he; exact he
      · intro h; exact absurd rfl h
      · intro _; rfl
  · refine ⟨_, by simp [coerceCell, hv]; rfl, ?_, ?_, ?_⟩
    · intro e he; exact he
    · intro _; rfl
    · intro _; rfl
  · rcases hp : ParseInt text with ⟨callRef, _ | e⟩
    · refine ⟨_, by simp [coerceCell, hv, hp]; rfl, ?_, ?_, ?_⟩
      · intro e he; exact he
      · intro _; rfl
      · intro h; exact absurd rfl h
    · refine ⟨_, by simp [coerceCell, hv, hp]; rfl, ?_, ?_, ?_⟩
      · intro e he; simp [he]
      · intro _; rfl
      · intro h; exact absurd rfl h
  · rcases hp : L.parseFloat text with ⟨eventValue, _ | _⟩
    · refine ⟨_, by simp [coerceCell, hv, hp]; rfl, ?_, ?_, ?_⟩
      · intro e he; exact he
      · intro _; rfl
      · intro _; rfl
    · refine ⟨_, by simp [coerceCell, hv, hp]; rfl, ?_, ?_, ?_⟩
      · intro e he; simp [he]
      · intro _; rfl
      · intro _; rfl
  · refine ⟨_, by simp [coerceCell, hv]; rfl, ?_, ?_, ?_⟩
    · intro e he; exact he
    · intro _; rfl
    · intro _; rfl


theorem coerceValues_single (L : Library) (header : String) (j : Nat) (values : Row)
    (st : Upload × List CoercionError) :
    coerceValues L header j [values] st = coerceCell L header j values st := by
  simp only [coerceValues]
  cases coerceCell L header j values st <;> rfl

theorem coerceValues_next (L : Library) (header : String) (j : Nat) (rows : List Row)
    (st : Upload × List CoercionError)
    (hmem : header ∈ allowedColumnNames) (hwidth : ∀ row ∈ rows, j < row.length) :
    ∃ st1, coerceValues L header j rows st = Flow.next st1 ∧
      (∀ e ∈ st.2, e ∈ st1.2) ∧
      (header ≠ "eventDatetime" → st1.1.EventDateTime = st.1.EventDateTime) ∧
      (header ≠ "callRef" → st1.1.CallRef = st.1.CallRef) := by
  induction rows generalizing st with
  | nil => exact ⟨st, rfl, fun e he => he, fun _ => rfl, fun _ => rfl⟩
  | cons row rest ih =>
    have hj : j < row.length := hwidth row (List.mem_cons_self row rest)
    have hv : row[j]? = some row[j] := List.getElem?_eq_getElem hj
    obtain ⟨st1, hcell, herr1, hdate1, hcall1⟩ :=
      coerceCell_next L header j row st row[j] hmem hv
    obtain ⟨st2, hrun, herr2, hdate2, hcall2⟩ :=
      ih st1 (fun r hr => hwidth r (List.mem_cons_of_mem row hr))
    refine ⟨st2, ?_, ?_, ?_, ?_⟩
    · simp only [coerceValues, hcell, hrun]
    · intro e he; exact herr2 e (herr1 e he)
    · intro hne; rw [hdate2 hne, hdate1 hne]
    · intro hne; rw [hcall2 hne, hcall1 hne]

theorem coerceValues_append (L : Library) (header : String) (j : Nat) (a b : List Row)
    (st st1 : Upload × List CoercionError)
    (h : coerceValues L header j a st = Flow.next st1) :
    coerceValues L header j (a ++ b) st = coerceValues L header j b st1 := by
  induction a generalizing st with
  | nil =>
    simp only [coerceValues] at h
    cases h
    rfl
  | cons row rest ih =>
    simp only [coerceValues, List.cons_append] at h ⊢
    cases hx : coerceCell L header j row st with
    | next s1 =>
      rw [hx] at h
      simp only at h ⊢
      exact ih s1 h
    | ret err => rw [hx] at h; cases h
    | crash c => rw [hx] at h; cases h

theorem coerceHeaders_next (L : Library) (rows : List Row) (headers : List String) (j : Nat)
    (st : Upload × List CoercionError)
    (hheader : isHeader headers = true)
    (hwidth : ∀ row ∈ rows, j + headers.length ≤ row.length) :
    ∃ st1, coerceHeaders L rows headers j st = Flow.next st1 ∧
      (∀ e ∈ st.2, e ∈ st1.2) ∧
      ("eventDatetime" ∉ headers → st1.1.EventDateTime = st.1.EventDateTime) ∧
      ("callRef" ∉ headers → st1.1.CallRef = st.1.CallRef) := by
  induction headers generalizing j st with
  | nil => exact ⟨st, rfl, fun e he => he, fun _ => rfl, fun _ => rfl⟩
  | cons header rest ih =>
    obtain ⟨hmem, hrest⟩ := isHeader_cons header rest hheader
    simp only [List.length_cons] at hwidth
    obtain ⟨st1, hcol, herr1, hdate1, hcall1⟩ :=
      coerceValues_next L header j rows st hmem
        (fun row hrow => by have := hwidth row hrow; omega)
    obtain ⟨st2, hrun, herr2, hdate2, hcall2⟩ :=
      ih (j + 1) st1 hrest (fun row hrow => by have := hwidth row hrow; omega)
    refine ⟨st2, ?_, ?_, ?_, ?_⟩
    · simp only [coerceHeaders, hcol, hrun]
    · intro e he; exact herr2 e (herr1 e he)
    · intro hnot
      rw [hdate2 (fun h => hnot (List.mem_cons_of_mem _ h)),
        hdate1 (fun h => hnot (by rw [h]; exact List.mem_cons_self _ _))]
    · intro hnot
      rw [hcall2 (fun h => hnot (List.mem_cons_of_mem _ h)),
        hcall1 (fun h => hnot (by rw [h]; exact List.mem_cons_self _ _))]

theorem coerceHeaders_append (L : Library) (rows : List Row) (a b : List String) (j : Nat)
    (st st1 : Upload × List CoercionError)
    (h : coerceHeaders L rows a j st = Flow.next st1) :
    coerceHeaders L rows (a ++ b) j st = coerceHeaders L rows b (j + a.length) st1 := by
  induction a generalizing j st with
  | nil =>
    simp only [coerceHeaders] at h
    cases h
    simp
  | cons x xs ih =>
    simp only [coerceHeaders, List.cons_append] at h ⊢
    cases hx : coerceValues L x j rows st with
    | next s1 =>
      rw [hx] at h
      simp only at h ⊢
      have hstep := ih (j + 1) s1 h
      have hlen : j + (x :: xs).length = j + 1 + xs.length := by
        simp only [List.length_cons]
        omega
      rw [hlen]
      exact hstep
    | ret err => rw [hx] at h; cases h
    | crash c => rw [hx] at h; cases h

theorem coerceRecords_length (L : Library) (records : List Record) (i : Nat)
    (uploadModels : List Upload) (errors : List CoercionError) (out : List Upload)
    (err : Option String)
    (h : coerceRecords L records i uploadModels errors = Outcome.returned out err) :
    out.length = uploadModels.length := by
  induction records generalizing i uploadModels errors with
  | nil =>
    simp only [coerceRecords] at h
    cases h
    rfl
  | cons record rest ih =>
    simp only [coerceRecords] at h
    cases hr : coerceRecord L record errors with
    | next s1 =>
      rw [hr] at h
      have := ih _ _ _ h
      simpa using this
    | ret e =>
      rw [hr] at h
      cases h
      rfl
    | crash c =>
      rw [hr] at h
      cases h

/-- The slice that `csvToUploadModel` returns has one entry for each
`Record`, whatever the number of value rows of the records. -/
theorem recordsToUploads_length (L : Library) (records : List Record) (out : List Upload)
    (err : Option String) (h : recordsToUploads L records = Outcome.returned out err) :
    out.length = records.length := by
  have := coerceRecords_length L records 0 _ [] out err h
  simpa using this

theorem validateAndInsert_models {σ : Type} (L : Library)
    (insert : σ → Upload → σ × (Int × Option String)) (uploadModels : List Upload) (db : σ) :
    (validateAndInsert L insert uploadModels db).2.map InsertCall.model =
      uploadModels.filter (fun m => (validate L m).1) := by
  induction uploadModels generalizing db with
  | nil => rfl
  | cons model rest ih =>
    cases hv : (validate L model).1 with
    | false => simp [validateAndInsert, hv, ih]
    | true => simp [validateAndInsert, hv, ih]

theorem validateAndInsert_append {σ : Type} (L : Library)
    (insert : σ → Upload → σ × (Int × Option String)) (a b : List Upload) (db : σ) :
    validateAndInsert L insert (a ++ b) db =
      ((validateAndInsert L insert b (validateAndInsert L insert a db).1).1,
        (validateAndInsert L insert a db).2 ++
          (validateAndInsert L insert b (validateAndInsert L insert a db).1).2) := by
  induction a generalizing db with
  | nil => simp [validateAndInsert]
  | cons model rest ih =>
    cases hv : (validate L model).1 with
    | false => simp [validateAndInsert, hv, ih]
    | true => simp [validateAndInsert, hv, ih]

theorem validateAndInsert_store {σ : Type} (L : Library)
    (insert : σ → Upload → σ × (Int × Option String)) (uploadModels : List Upload) (db : σ) :
    (validateAndInsert L insert uploadModels db).1 =
      (uploadModels.filter (fun m => (validate L m).1)).foldl
        (fun s m => (insert s m).1) db := by
  induction uploadModels generalizing db with
  | nil => rfl
  | cons model rest ih =>
    cases hv : (validate L model).1 with
    | false => simp [validateAndInsert, hv, ih]
    | true => simp [validateAndInsert, hv, ih]


theorem coerceRecord_failed_cell (L : Library) (before : List String) (name : String)
    (after : List String) (earlier : List Row) (values : Row) (text : String)
    (errors : List CoercionError)
    (hheader : isHeader (before ++ name :: after) = true)
    (hwidth : ∀ row ∈ earlier ++ [values],
      (before ++ name :: after).length ≤ row.length)
    (hstep : ∀ st1 : Upload × List CoercionError, ∃ st2,
      coerceCell L name before.length values st1 = Flow.next st2 ∧
      (st2.1.EventDateTime = zeroTime ∧ "eventDatetime" ∉ after ∨
        st2.1.CallRef = 0 ∧ "callRef" ∉ after) ∧
      (CoercionError.parseDate text ∈ st2.2 ∨
        CoercionError.parseCallRef text NumError.ErrSyntax ∈ st2.2)) :
    ∃ upload errors1,
      coerceRecord L
        { Headers := before ++ name :: after, Values := earlier ++ [values] } errors =
        Flow.next (upload, errors1) ∧
      (CoercionError.parseDate text ∈ errors1 ∨
        CoercionError.parseCallRef text NumError.ErrSyntax ∈ errors1) ∧
      (validate L upload).1 = false := by
  rw [isHeader_append, Bool.and_eq_true] at hheader
  obtain ⟨hbefore, htail⟩ := hheader
  obtain ⟨hname, hafter⟩ := isHeader_cons name after htail
  simp only [List.length_append, List.length_cons] at hwidth
  obtain ⟨st1, hrun1, _, _, _⟩ :=
    coerceHeaders_next L (earlier ++ [values]) before 0 (zeroUpload, errors) hbefore
      (fun row hrow => by have := hwidth row hrow; omega)
  obtain ⟨st1a, hrun1a, _, _, _⟩ :=
    coerceValues_next L name before.length earlier st1 hname
      (fun row hrow => by
        have := hwidth row (List.mem_append_left _ hrow)
        omega)
  obtain ⟨st2, hrun2, hzero, herr2⟩ := hstep st1a
  obtain ⟨st3, hrun3, herr3, hdate3, hcall3⟩ :=
    coerceHeaders_next L (earlier ++ [values]) after (before.length + 1) st2 hafter
      (fun row hrow => by have := hwidth row hrow; omega)
  refine ⟨st3.1, st3.2, ?_, ?_, ?_⟩
  · simp only [coerceRecord]
    rw [coerceHeaders_append L (earlier ++ [values]) before (name :: after) 0 _ st1 hrun1]
    simp only [coerceHeaders, Nat.zero_add]
    rw [coerceValues_append L name before.length earlier [values] st1 st1a hrun1a,
      coerceValues_single, hrun2]
    simp only [hrun3]
  · rcases herr2 with h | h
    · exact Or.inl (herr3 _ h)
    · exact Or.inr (herr3 _ h)
  · rcases hzero with ⟨hz, hnot⟩ | ⟨hz, hnot⟩
    · exact validate_zero_time L st3.1 (by rw [hdate3 hnot, hz])
    · exact validate_zero_callRef L st3.1 (by rw [hcall3 hnot, hz])

/-! ## Claims on the coercion stage and on `validateAndInsert` -/

/-- C4, the code at the failing input: a record with the standard header and
two value rows gives one entity, not two, and that entity is the one of the
second row; nothing of the first row is returned. The same holds for the
file that holds these three rows. -/
theorem recordsToUploads_one_entity_per_record :
    ([{ Headers := standardHeader, Values := [purchaseRow, refundRow] }].map
      (fun r : Record => r.Values.length)).sum = 2 ∧
    recordsToUploads exampleLibrary
      [{ Headers := standardHeader, Values := [purchaseRow, refundRow] }] =
      Outcome.returned [refundUpload] none ∧
    csvToUploadModel exampleLibrary
      [RawFile.contents [standardHeader, purchaseRow, refundRow]] =
      Outcome.returned [refundUpload] none ∧
    recordsToUploads exampleLibrary [{ Headers := standardHeader, Values := [] }] =
      Outcome.returned [zeroUpload] none := by
  decide

/-- C6, the code at the failing input: the call reference
`9223372036854775808` is outside the `int64` range, the coercer records the
range error, and the `CallRef` of the entity is 9223372036854775807, not 0;
`validate` then accepts the entity. A numeral below the range gives
-9223372036854775808 in the same way. Only on a syntax error (text that is
no decimal numeral, the empty text included) is the value 0. -/
theorem coerceRecord_callRef_out_of_range :
    ParseInt "9223372036854775808" = (9223372036854775807, some NumError.ErrRange) ∧
    coerceRecord exampleLibrary { Headers := standardHeader, Values := [overflowRow] } [] =
      Flow.next ({ acceptedUpload with CallRef := 9223372036854775807 },
        [CoercionError.parseCallRef "9223372036854775808" NumError.ErrRange]) ∧
    validate exampleLibrary { acceptedUpload with CallRef := 9223372036854775807 } =
      (true, none) ∧
    ParseInt "-9223372036854775809" = (-9223372036854775808, some NumError.ErrRange) ∧
    ParseInt "" = (0, some NumError.ErrSyntax) ∧
    ParseInt "12a" = (0, some NumError.ErrSyntax) ∧
    (∀ s : String, (ParseInt s).2 = some NumError.ErrSyntax → (ParseInt s).1 = 0) :=
  ⟨by decide, by decide, by decide, by decide, by decide, by decide,
    fun s h => by rw [ParseInt_syntax_value s h]⟩

/-- C7, the claim as written fails: coercing a row whose event value is
`abc` records a coercion error on eventValue and leaves `EventValue` at 0,
and `validate` accepts the entity. -/
theorem coercion_error_on_eventValue_accepted :
    coerceRecord exampleLibrary { Headers := standardHeader, Values := [badValueRow] } [] =
      Flow.next ({ acceptedUpload with EventValue := { bits := 0 } },
        [CoercionError.parseEventValue "abc"]) ∧
    validate exampleLibrary { acceptedUpload with EventValue := { bits := 0 } } =
      (true, none) := by
  decide

/-- A coercion error in a value row that is not the last of its Record is
overwritten: with `badDateRow` followed by `purchaseRow` under one header the
date error is recorded, the date of the later row is the one kept, and
`validate` accepts the entity of the Record. -/
theorem coercion_error_overwritten_by_later_row :
    coerceRecord exampleLibrary
      { Headers := standardHeader, Values := [badDateRow, purchaseRow] } [] =
      Flow.next (acceptedUpload, [CoercionError.parseDate "yesterday"]) ∧
    validate exampleLibrary acceptedUpload = (true, none) := by
  decide

/-- C7 as amended: for a Record whose last value row is `values` (after any
number of earlier value rows, every row at least as wide as the header), if
in that last row the text in a column named eventDatetime does not parse, or
the text in a column named callRef is no decimal numeral (`ParseInt` returns
a syntax error), and no later column has the same name, then coercing the
Record ends normally, records that error, and `validate` rejects the entity
of the Record. Nothing is said of a call reference outside the `int64`
range, nor of an error in a value row or column that a later one
overwrites; an error on eventValue does not make `validate` reject. -/
theorem coercion_error_rejected (L : Library) (before : List String) (name : String)
    (after : List String) (earlier : List Row) (values : Row) (text : String)
    (errors : List CoercionError)
    (hheader : isHeader (before ++ name :: after) = true)
    (hwidth : ∀ row ∈ earlier ++ [values],
      (before ++ name :: after).length ≤ row.length)
    (hlast : name ∉ after)
    (htext : values[before.length]? = some text)
    (hfail : (name = "eventDatetime" ∧ L.timeParse text = none) ∨
      (name = "callRef" ∧ (ParseInt text).2 = some NumError.ErrSyntax)) :
    ∃ upload errors1,
      coerceRecord L
        { Headers := before ++ name :: after, Values := earlier ++ [values] } errors =
        Flow.next (upload, errors1) ∧
      (CoercionError.parseDate text ∈ errors1 ∨
        CoercionError.parseCallRef text NumError.ErrSyntax ∈ errors1) ∧
      (validate L upload).1 = false := by
  apply coerceRecord_failed_cell L before name after earlier values text errors
    hheader hwidth
  intro st1
  rcases hfail with ⟨hname, hparse⟩ | ⟨hname, hparse⟩
  · subst hname
    refine ⟨({ st1.1 with EventDateTime := zeroTime },
      st1.2 ++ [CoercionError.parseDate text]), ?_, Or.inl ⟨rfl, hlast⟩, Or.inl ?_⟩
    · simp [coerceCell, htext, hparse]
    · simp
  · subst hname
    have hp := ParseInt_syntax_value text hparse
    refine ⟨({ st1.1 with CallRef := 0 },
      st1.2 ++ [CoercionError.parseCallRef text NumError.ErrSyntax]), ?_,
      Or.inr ⟨rfl, hlast⟩, Or.inr ?_⟩
    · simp [coerceCell, htext, hp]
    · simp

/-- C7 as amended, at a Record with the standard header whose value rows are
`purchaseRow` and then `badDateRow`: the date `yesterday` of the last row
does not parse, and the entity of the Record is rejected. -/
theorem coercion_error_rejected_witness :
    ∃ upload errors1,
      coerceRecord exampleLibrary
        { Headers := [] ++ "eventDatetime" ::
            ["eventAction", "callRef", "eventValue", "eventCurrencyCode"],
          Values := [purchaseRow] ++ [badDateRow] } [] = Flow.next (upload, errors1) ∧
      (CoercionError.parseDate "yesterday" ∈ errors1 ∨
        CoercionError.parseCallRef "yesterday" NumError.ErrSyntax ∈ errors1) ∧
      (validate exampleLibrary upload).1 = false :=
  coercion_error_rejected exampleLibrary [] "eventDatetime"
    ["eventAction", "callRef", "eventValue", "eventCurrencyCode"] [purchaseRow]
    badDateRow "yesterday" []
    (by decide) (by decide) (by decide) (by decide) (Or.inl ⟨rfl, by decide⟩)

/-- C9: whatever `Insert` does and returns, `validateAndInsert` calls it on
exactly the entities that `validate` accepts, once for each and in input
order, and on no entity that `validate` rejects; the store at the end is the
one these calls leave. A rejected entity or a failed `Insert` does not stop
the loop: the calls made on a batch are those made on any first part of it
followed by those made on the rest. -/
theorem validateAndInsert_calls_accepted {σ : Type} (L : Library)
    (insert : σ → Upload → σ × (Int × Option String)) (uploadModels : List Upload) (db : σ) :
    (validateAndInsert L insert uploadModels db).2.map InsertCall.model =
      uploadModels.filter (fun m => (validate L m).1) ∧
    (∀ m ∈ uploadModels, (validate L m).1 = false →
      m ∉ (validateAndInsert L insert uploadModels db).2.map InsertCall.model) ∧
    (validateAndInsert L insert uploadModels db).1 =
      (uploadModels.filter (fun m => (validate L m).1)).foldl
        (fun s m => (insert s m).1) db ∧
    (∀ a b : List Upload, uploadModels = a ++ b →
      (validateAndInsert L insert uploadModels db).2 =
        (validateAndInsert L insert a db).2 ++
          (validateAndInsert L insert b (validateAndInsert L insert a db).1).2) := by
  refine ⟨validateAndInsert_models L insert uploadModels db, ?_,
    validateAndInsert_store L insert uploadModels db, ?_⟩
  · intro m _ hrej hmem
    rw [validateAndInsert_models, List.mem_filter] at hmem
    rw [hrej] at hmem
    exact absurd hmem.2 (by simp)
  · intro a b hsplit
    rw [hsplit, validateAndInsert_append]

end InfinityTechTest
